import Mathlib

/-
Verification of the codecrafters-redis-rust repository (src/main.rs and
src/redis.rs) against its natural-language specification.

The repository holds two snapshots of the same evolving program:
  - src/main.rs   : a self-contained Processor (its own Value, decoder,
    into_command interpreter, per-connection HashMap storage).
  - src/redis.rs  : a refactored Worker / Server (shared storage behind a
    mutex, a background gc loop, a structured Error enum).

Shallow embedding conventions used throughout this file:
  - Byte streams are List Nat (one Nat per byte, values 0..255); reading
    consumes a prefix and returns the suffix.  End of stream models EOF,
    which tokio reports as an unexpected-EOF I/O error on read_u8 and
    read_exact, and as a short (possibly empty) read on read_until.
  - Rust String values inside the protocol are modelled as raw byte lists.
    The model is byte-faithful for ASCII content; theorems that need
    byte-level faithfulness restrict strings to ASCII bytes.
  - usize / u64 / i64 parsing keeps the Rust range checks explicitly
    (2 ^ 64 and 2 ^ 63 bounds); Instant is modelled as a Nat timestamp
    in milliseconds and Instant + Duration as Nat addition.
  - A Rust panic (assert! failure or .unwrap() on a failed parse) is a
    fatal abort, not a value of the source Error enum.  It is modelled
    by the distinguished result RErr.panicked (and by Option.none for
    main.rs into_command, which returns plain values, not Results), so
    that theorems can tell recovered errors from fatal aborts.
  - The read_message / process loop of both snapshots is driven by an
    explicit fuel parameter bounding the number of loop iterations; a
    result of Option.none means the fuel ran out.  Fuel at least the
    stream length plus one always suffices, since every read consumes
    at least one byte.
-/

namespace RedisSpec

/-- Wire-format value tree, from the Value enum shared by both snapshots:
Nil, Int(i64), String(String), Array(usize, Vec of Value). -/
inductive Value : Type where
  | nil : Value
  | int (n : Int) : Value
  | str (s : List Nat) : Value
  | arr (size : Nat) (data : List Value) : Value

mutual

def Value.beq : Value → Value → Bool
  | .nil, .nil => true
  | .int a, .int b => a == b
  | .str a, .str b => a == b
  | .arr n a, .arr m b => n == m && beqList a b
  | _, _ => false

def beqList : List Value → List Value → Bool
  | [], [] => true
  | x :: xs, y :: ys => x.beq y && beqList xs ys
  | _, _ => false

end

mutual

theorem Value.beq_iff : ∀ a b : Value, a.beq b = true ↔ a = b
  | .nil, .nil => by simp [Value.beq]
  | .int _, .int _ => by simp [Value.beq]
  | .str _, .str _ => by simp [Value.beq]
  | .arr n a, .arr m b => by simp [Value.beq, beqList_iff a b]
  | .nil, .int _ | .nil, .str _ | .nil, .arr _ _
  | .int _, .nil | .int _, .str _ | .int _, .arr _ _
  | .str _, .nil | .str _, .int _ | .str _, .arr _ _
  | .arr _ _, .nil | .arr _ _, .int _ | .arr _ _, .str _ => by simp [Value.beq]

theorem beqList_iff : ∀ a b : List Value, beqList a b = true ↔ a = b
  | [], [] => by simp [beqList]
  | x :: xs, y :: ys => by simp [beqList, Value.beq_iff x y, beqList_iff xs ys]
  | [], _ :: _ | _ :: _, [] => by simp [beqList]

end

instance : DecidableEq Value := fun a b => decidable_of_iff _ (Value.beq_iff a b)

/- Value::is_complete and its list traversal. -/
mutual

/-- Value::is_complete: an Array is complete iff the collected elements
match the declared size and each element is complete; every non-array
value is complete. -/
def Value.isComplete : Value → Bool
  | .nil => true
  | .int _ => true
  | .str _ => true
  | .arr size data => size == data.length && allComplete data

def allComplete : List Value → Bool
  | [] => true
  | x :: xs => x.isComplete && allComplete xs

end

mutual

/-- Value::append.  The source asserts the receiver is not complete, then:
if the receiver is an array holding an incomplete child, recurse into the
first such child; otherwise assert the collected count is below the
declared size and push the new value.  A result of none models the Rust
panic of a failed assert or of the explicit panic branch for non-arrays. -/
def Value.vAppend : Value → Value → Option Value
  | .arr size data, v =>
    if (Value.arr size data).isComplete then none
    else
      match vAppendList data v with
      | some r => r.map (Value.arr size)
      | none => if data.length < size then some (.arr size (data ++ [v])) else none
  | _, _ => none

/-- Helper mirroring data.iter_mut().find over incomplete children: none
means no incomplete child exists (the caller then pushes); some r means the
first incomplete child was found and r is the rewritten element list (with
the inner none meaning the recursive append panicked). -/
def vAppendList : List Value → Value → Option (Option (List Value))
  | [], _ => none
  | x :: xs, v =>
    if x.isComplete then (vAppendList xs v).map (fun r => r.map (x :: ·))
    else some ((x.vAppend v).map (· :: xs))

end

mutual

/-- Invariant of decoder-produced values: at every array node the
collected element count is at most the declared size. -/
def sizeInv : Value → Bool
  | .nil => true
  | .int _ => true
  | .str _ => true
  | .arr size data => data.length ≤ size && allSizeInv data

def allSizeInv : List Value → Bool
  | [] => true
  | x :: xs => sizeInv x && allSizeInv xs

end

/- ## Byte-level utilities shared by encoder and decoder -/

/-- Decimal digits of a natural number, most significant first, as ASCII
bytes.  Structural in an explicit fuel so that it reduces in the kernel;
fuel n + 1 always suffices for n. -/
def natDigitsAux : Nat → Nat → List Nat
  | 0, _ => []
  | fuel + 1, n => if n < 10 then [48 + n] else natDigitsAux fuel (n / 10) ++ [48 + n % 10]

def natDigits (n : Nat) : List Nat := natDigitsAux (n + 1) n

/-- Decimal rendering of an i64, as produced by the Display format
specifier of Rust: a minus sign followed by the digits of the magnitude
for negative numbers, plain digits otherwise. -/
def intDigits (n : Int) : List Nat :=
  if n < 0 then 45 :: natDigits n.natAbs else natDigits n.toNat

def digitVal (b : Nat) : Option Nat :=
  if 48 ≤ b ∧ b ≤ 57 then some (b - 48) else none

/-- Base-ten accumulation over a byte list: some value only when the list
is nonempty and every byte is an ASCII digit. -/
def parseNatDigits (s : List Nat) : Option Nat :=
  if s.isEmpty then none
  else s.foldl (fun acc b => acc.bind (fun n => (digitVal b).map (fun d => n * 10 + d))) (some 0)

/-- str::parse::<usize> / u64: an optional leading plus sign, then at
least one digit, with the value below 2 ^ 64. -/
def parseUsizeBytes (s : List Nat) : Option Nat :=
  match s with
  | [] => none
  | b :: rest =>
    if b = 43 then (parseNatDigits rest).bind (fun n => if n < 2 ^ 64 then some n else none)
    else (parseNatDigits (b :: rest)).bind (fun n => if n < 2 ^ 64 then some n else none)

/-- str::parse::<i64>: an optional sign, then at least one digit, with
the value inside the i64 range. -/
def parseI64Bytes (s : List Nat) : Option Int :=
  match s with
  | [] => none
  | b :: rest =>
    if b = 45 then
      (parseNatDigits rest).bind (fun n => if n ≤ 2 ^ 63 then some (-(n : Int)) else none)
    else if b = 43 then
      (parseNatDigits rest).bind (fun n => if n < 2 ^ 63 then some ((n : Int)) else none)
    else
      (parseNatDigits (b :: rest)).bind (fun n => if n < 2 ^ 63 then some ((n : Int)) else none)

/-- Whitespace bytes removed by str::trim (ASCII subset). -/
def isWs (b : Nat) : Bool := b == 9 || b == 10 || b == 11 || b == 12 || b == 13 || b == 32

def trimBytes (s : List Nat) : List Nat :=
  ((s.dropWhile isWs).reverse.dropWhile isWs).reverse

/-- read_until with the newline byte as delimiter: returns the consumed
prefix (up to and including the first newline byte, or the whole stream
at EOF) and the remaining stream. -/
def readUntilLF : List Nat → List Nat × List Nat
  | [] => ([], [])
  | b :: rest =>
    if b = 10 then ([10], rest)
    else
      let (c, r) := readUntilLF rest
      (b :: c, r)

/-- ASCII lowercasing of one byte, the fragment of str::to_lowercase the
command words exercise. -/
def lowerByte (b : Nat) : Nat := if 65 ≤ b ∧ b ≤ 90 then b + 32 else b

def lowerBytes (s : List Nat) : List Nat := s.map lowerByte

/-- Bytes rendered back to a Lean String, used to mirror the format!
interpolation inside error messages. -/
def bytesToString (s : List Nat) : String := String.mk (s.map (fun b => Char.ofNat b))

/- ## Encoder: the Display implementation of redis.rs -/

mutual

/-- The Display implementation of Value in redis.rs, at byte level.
Note the array case reproduces the source format string faithfully:
star, the declared size, the concatenated element encodings, and only
then the line terminator. -/
def encode : Value → List Nat
  | .arr size data => 42 :: natDigits size ++ encodeList data ++ [13, 10]
  | .str s => 36 :: natDigits s.length ++ [13, 10] ++ s ++ [13, 10]
  | .int n => 58 :: intDigits n ++ [13, 10]
  | .nil => [36, 45, 49, 13, 10]

def encodeList : List Value → List Nat
  | [] => []
  | v :: vs => encode v ++ encodeList vs

end

/- ## Failure model -/

/-- Outcomes that abort a request or a connection.  The first three mirror
the Error enum of redis.rs (Io, Argument(String), TryFromInt); panicked is
not a member of that enum: it models a Rust panic (assert! failure or
.unwrap() on a failed parse), a fatal abort rather than a returned error. -/
inductive RErr : Type where
  | ioErr : RErr
  | argument (msg : String) : RErr
  | tryFromInt : RErr
  | panicked : RErr
deriving DecidableEq

deriving instance DecidableEq for Except

/- ## Decoder: the read_* methods of the Worker in redis.rs -/

/-- read_num::<usize>: read_until newline, trim, parse, unwrap.  A failed
parse is an unwrap panic, not a returned error. -/
def readNumUsize (s : List Nat) : Except RErr (Nat × List Nat) :=
  let p := readUntilLF s
  match parseUsizeBytes (trimBytes p.1) with
  | some n => .ok (n, p.2)
  | none => .error .panicked

/-- read_num::<i64>, same shape as readNumUsize. -/
def readNumI64 (s : List Nat) : Except RErr (Int × List Nat) :=
  let p := readUntilLF s
  match parseI64Bytes (trimBytes p.1) with
  | some n => .ok (n, p.2)
  | none => .error .panicked

/-- read_fixed_string: read_exact size bytes (unexpected EOF when fewer
are available), then read_until newline and discard that terminator line. -/
def readFixedString (size : Nat) (s : List Nat) : Except RErr (List Nat × List Nat) :=
  if size ≤ s.length then .ok (s.take size, (readUntilLF (s.drop size)).2)
  else .error .ioErr

/-- read_simple_string: read_until newline, trim, keep the text. -/
def readSimpleString (s : List Nat) : Except RErr (List Nat × List Nat) :=
  let p := readUntilLF s
  .ok (trimBytes p.1, p.2)

/-- Worker::read_single of redis.rs: one tag byte (EOF here is an I/O
error), then the tagged payload; any unrecognized tag byte yields Nil with
no further bytes consumed. -/
def readSingle (s : List Nat) : Except RErr (Value × List Nat) :=
  match s with
  | [] => .error .ioErr
  | b :: rest =>
    if b = 42 then
      match readNumUsize rest with
      | .error e => .error e
      | .ok (size, r) => .ok (.arr size [], r)
    else if b = 36 then
      match readNumI64 rest with
      | .error e => .error e
      | .ok (size, r) =>
        if 0 < size then
          match readFixedString size.toNat r with
          | .error e => .error e
          | .ok (body, r2) => .ok (.str body, r2)
        else .ok (.nil, r)
    else if b = 58 then
      match readNumI64 rest with
      | .error e => .error e
      | .ok (n, r) => .ok (.int n, r)
    else if b = 43 then
      match readSimpleString rest with
      | .error e => .error e
      | .ok (body, r) => .ok (.str body, r)
    else .ok (.nil, rest)

/-- Loop body of Worker::read_message: while the accumulated root is not
complete, read one more unit and append it.  none means the fuel ran out
(which cannot happen once fuel exceeds the stream length). -/
def readMessageAux : Nat → Value → List Nat → Option (Except RErr (Value × List Nat))
  | 0, msg, s => if msg.isComplete then some (.ok (msg, s)) else none
  | fuel + 1, msg, s =>
    if msg.isComplete then some (.ok (msg, s))
    else
      match readSingle s with
      | .error e => some (.error e)
      | .ok (v, s2) =>
        match msg.vAppend v with
        | none => some (.error .panicked)
        | some msg2 => readMessageAux fuel msg2 s2

/-- Worker::read_message of redis.rs: the first unit becomes the root,
then the append loop runs until the root is complete. -/
def readMessage (fuel : Nat) (s : List Nat) : Option (Except RErr (Value × List Nat)) :=
  match readSingle s with
  | .error e => some (.error e)
  | .ok (v, s2) => readMessageAux fuel v s2

/- ## Interpreter: the Command type of redis.rs -/

/-- Command enum of redis.rs: Ping, Echo, Get, Set with an optional
absolute expiry instant. -/
inductive Command : Type where
  | ping : Command
  | echo (s : List Nat) : Command
  | get (s : List Nat) : Command
  | set (key : List Nat) (value : Value) (expiry : Option Nat) : Command
deriving DecidableEq

def pingBytes : List Nat := [112, 105, 110, 103]

def echoBytes : List Nat := [101, 99, 104, 111]

def getBytes : List Nat := [103, 101, 116]

def setBytes : List Nat := [115, 101, 116]

def pxBytes : List Nat := [112, 120]

/-- Command::from_string: a bare string is only ever PING. -/
def fromString (data : List Nat) : Except RErr Command :=
  if lowerBytes data = pingBytes then .ok .ping
  else .error (.argument ("not implemented: " ++ bytesToString data))

/-- Command::echo: pop the last element; it must be a string.  No arity
check is performed by the source. -/
def echoCmd (data : List Value) : Except RErr Command :=
  match data.getLast? with
  | some (.str s) => .ok (.echo s)
  | _ => .error (.argument "ECHO: wrong argument type")

/-- Command::get, same pop-the-last shape as echo. -/
def getCmd (data : List Value) : Except RErr Command :=
  match data.getLast? with
  | some (.str s) => .ok (.get s)
  | _ => .error (.argument "GET: wrong argument type")

mutual

/-- Command::set of redis.rs, with the total element count of the array
(command word included) deciding the shape: fewer than 3 is an argument
error, more than 3 defers to set_with_flags (note the expiry accumulated
so far is dropped there), exactly 3 pops value then key.  The fuel makes
the mutual recursion structural; set_with_flags recurses on a list two
elements shorter, so fuel beyond the list length never runs out (the
fuel-out result is the unreachable panicked). -/
def setCmdFuel : Nat → Nat → List Value → Option Nat → Except RErr Command
  | 0, _, _, _ => .error .panicked
  | fuel + 1, now, data, expiry =>
    if data.length < 3 then
      .error (.argument ("not enough arguments for set: " ++ toString data.length))
    else if 3 < data.length then setWithFlagsFuel fuel now data
    else
      match data.getLast? with
      | none => .error .panicked
      | some value =>
        match data.dropLast.getLast? with
        | some (.str name) => .ok (.set name value expiry)
        | some _ => .error (.argument "SET: wrong argument type")
        | none => .error .panicked

/-- Command::set_with_flags of redis.rs: pop the trailing argument, pop
the flag; the flag must be the string px (case-insensitive); the argument
must be an Int (negative values are a TryFromInt conversion failure) or a
string parsed as u64 with unwrap (a non-numeric string panics); then
recurse into set on the remaining prefix with the computed absolute
expiry. -/
def setWithFlagsFuel : Nat → Nat → List Value → Except RErr Command
  | 0, _, _ => .error .panicked
  | fuel + 1, now, data =>
    match data.getLast? with
    | none => .error .panicked
    | some arg =>
      match data.dropLast.getLast? with
      | some (.str flag) =>
        if lowerBytes flag = pxBytes then
          match arg with
          | .int d =>
            if 0 ≤ d then setCmdFuel fuel now data.dropLast.dropLast (some (now + d.toNat))
            else .error .tryFromInt
          | .str ds =>
            match parseUsizeBytes ds with
            | some ms => setCmdFuel fuel now data.dropLast.dropLast (some (now + ms))
            | none => .error .panicked
          | _ => .error (.argument "SET: wrong argument type")
        else .error (.argument ("SET: flag not implemented: " ++ bytesToString flag))
      | some _ => .error (.argument "SET: wrong argument type")
      | none => .error .panicked

end

def setCmd (now : Nat) (data : List Value) (expiry : Option Nat) : Except RErr Command :=
  setCmdFuel (data.length + 1) now data expiry

/-- Command::from_array: dispatch on the lowercased first element, which
must be a string; an empty array is an argument error. -/
def fromArray (now : Nat) (data : List Value) : Except RErr Command :=
  match data with
  | [] => .error (.argument "empty command")
  | first :: _ =>
    match first with
    | .str command =>
      if lowerBytes command = pingBytes then .ok .ping
      else if lowerBytes command = echoBytes then echoCmd data
      else if lowerBytes command = getBytes then getCmd data
      else if lowerBytes command = setBytes then setCmd now data none
      else .error (.argument ("not implemented: " ++ bytesToString command))
    | _ => .error (.argument "wrong argument type")

/-- Command::from_value: arrays and bare strings are interpretable,
everything else is a wrong argument type.  now is the sampled current
instant used for PX deadlines. -/
def fromValue (now : Nat) : Value → Except RErr Command
  | .arr _ data => fromArray now data
  | .str data => fromString data
  | _ => .error (.argument "wrong argument type")

/- ## Store: the shared HashMap of keys to StoredValue -/

/-- StoredValue: a value together with its optional absolute expiry. -/
structure StoredValue : Type where
  value : Value
  expiry : Option Nat
deriving DecidableEq

/-- The HashMap of String keys to StoredValue, modelled as an association
list with unique keys (insertion replaces). -/
abbrev Store : Type := List (List Nat × StoredValue)

def lookupStore (s : Store) (k : List Nat) : Option StoredValue :=
  (s.find? (fun e => e.1 == k)).map (·.2)

/-- HashMap::insert: the previous entry under the key, whatever its own
expiry state, is discarded. -/
def insertStore (k : List Nat) (v : StoredValue) (s : Store) : Store :=
  (k, v) :: s.filter (fun e => !(e.1 == k))

/-- One pass of the retain closure inside Server::gc of redis.rs: an
entry is kept exactly when the closure returns true, and the closure
returns (expiry < now) for entries carrying an expiry and true for
entries without one. -/
def gcPass (now : Nat) (s : Store) : Store :=
  s.filter (fun e =>
    match e.2.expiry with
    | some ex => decide (ex < now)
    | none => true)

/-- Worker::get_value of redis.rs: look the key up; a present entry whose
expiry is strictly before the sampled now reads as Nil; otherwise the
stored value is cloned out.  The store itself is not touched. -/
def getValue (storage : Store) (name : List Nat) (now : Nat) : Value :=
  match lookupStore storage name with
  | some sv =>
    match sv.expiry with
    | some ex => if ex < now then .nil else sv.value
    | none => sv.value
  | none => .nil

/- ## Worker loop of redis.rs -/

def pongBytes : List Nat := [80, 79, 78, 71]

def okBytes : List Nat := [79, 75]

/-- The dispatch match inside Worker::process_message of redis.rs: the
response Value and the storage left behind. -/
def dispatch (now : Nat) (storage : Store) : Command → Value × Store
  | .ping => (.str pongBytes, storage)
  | .echo s => (.str s, storage)
  | .get n => (getValue storage n now, storage)
  | .set n v e => (.str okBytes, insertStore n ⟨v, e⟩ storage)

/-- Connection-local state of a Worker: the unread input stream and the
shared storage (writes to the socket are returned, not stored). -/
structure WState : Type where
  stream : List Nat
  storage : Store
deriving DecidableEq

/-- Worker::process_message of redis.rs: read one complete message,
interpret it, dispatch, encode and send the response.  Every failure of
reading or interpretation propagates out through the question-mark
operator.  The ok result carries the new state and the bytes written. -/
def processMessage (now mf : Nat) (st : WState) : Option (Except RErr (WState × List Nat)) :=
  match readMessage mf st.stream with
  | none => none
  | some (.error e) => some (.error e)
  | some (.ok (msg, s2)) =>
    match fromValue now msg with
    | .error e => some (.error e)
    | .ok c =>
      let r := dispatch now st.storage c
      some (.ok (⟨s2, r.2⟩, encode r.1))

/-- Worker::run of redis.rs: loop over process_message, stopping at the
first error (the question-mark operator ends the loop and returns the
error to the caller, closing the connection).  Returns the replies
written, the final state, and the terminating error when one occurred
within the iteration budget. -/
def runW (now mf : Nat) : Nat → WState → Option (List (List Nat) × WState × Option RErr)
  | 0, st => some ([], st, none)
  | n + 1, st =>
    match processMessage now mf st with
    | none => none
    | some (.error e) => some ([], st, some e)
    | some (.ok (st2, reply)) =>
      (runW now mf n st2).map (fun r => (reply :: r.1, r.2))

/- ## The main.rs snapshot: Processor with its own decoder and interpreter -/

/-- Processor::read_single of main.rs: like the Worker one but with no
branch for the plus tag, which therefore falls into the unrecognized
default and yields Nil. -/
def mainReadSingle (s : List Nat) : Except RErr (Value × List Nat) :=
  match s with
  | [] => .error .ioErr
  | b :: rest =>
    if b = 42 then
      match readNumUsize rest with
      | .error e => .error e
      | .ok (size, r) => .ok (.arr size [], r)
    else if b = 36 then
      match readNumI64 rest with
      | .error e => .error e
      | .ok (size, r) =>
        if 0 < size then
          match readFixedString size.toNat r with
          | .error e => .error e
          | .ok (body, r2) => .ok (.str body, r2)
        else .ok (.nil, r)
    else if b = 58 then
      match readNumI64 rest with
      | .error e => .error e
      | .ok (n, r) => .ok (.int n, r)
    else .ok (.nil, rest)

def mainReadMessageAux : Nat → Value → List Nat → Option (Except RErr (Value × List Nat))
  | 0, msg, s => if msg.isComplete then some (.ok (msg, s)) else none
  | fuel + 1, msg, s =>
    if msg.isComplete then some (.ok (msg, s))
    else
      match mainReadSingle s with
      | .error e => some (.error e)
      | .ok (v, s2) =>
        match msg.vAppend v with
        | none => some (.error .panicked)
        | some msg2 => mainReadMessageAux fuel msg2 s2

/-- Processor::read_message of main.rs, same append loop as the Worker. -/
def mainReadMessage (fuel : Nat) (s : List Nat) : Option (Except RErr (Value × List Nat)) :=
  match mainReadSingle s with
  | .error e => some (.error e)
  | .ok (v, s2) => mainReadMessageAux fuel v s2

/-- Command enum of main.rs: unlike redis.rs it has an Error variant that
carries interpretation failures as ordinary values. -/
inductive MainCommand : Type where
  | err (cause : String) : MainCommand
  | ping : MainCommand
  | echo (s : List Nat) : MainCommand
  | get (s : List Nat) : MainCommand
  | set (key : List Nat) (value : Value) (expiry : Option Nat) : MainCommand
deriving DecidableEq

/-- The flag and name steps of the five-element SET branch of
Value::into_command in main.rs, entered after the duration has been
popped and converted: pop the flag (a non-string flag is a wrong argument
type), assert it is px (any other flag string is an assert panic, hence
none), pop the value, pop the name.  d1 is the array with the duration
already popped. -/
def mainSetPxFlag (now : Nat) (d1 : List Value) (ms : Nat) : Option MainCommand :=
  match d1.getLast? with
  | none => none
  | some (.str flag) =>
    if lowerBytes flag = pxBytes then
      match d1.dropLast.getLast? with
      | none => none
      | some value =>
        match d1.dropLast.dropLast.getLast? with
        | some (.str name) => some (.set name value (some (now + ms)))
        | some _ => some (.err "SET: wrong argument type")
        | none => none
    else none
  | some _ => some (.err "SET: wrong argument type")

/-- The five-element SET branch of Value::into_command in main.rs: pop
the duration first; an Int duration is cast with as u64 (two-sided
wrapping), a string duration is parsed with unwrap (a non-numeric string
panics, hence none), anything else returns the wrong-argument-type
command. -/
def mainSetPx (now : Nat) (data : List Value) : Option MainCommand :=
  match data.getLast? with
  | none => none
  | some durv =>
    match durv with
    | .int d => mainSetPxFlag now data.dropLast ((d.emod (2 ^ 64)).toNat)
    | .str ds =>
      match parseUsizeBytes ds with
      | some ms => mainSetPxFlag now data.dropLast ms
      | none => none
    | _ => some (.err "SET: wrong argument type")

/-- Value::into_command of main.rs.  none models a panic: the assert on a
nonempty array, the assert that the flag is px, or the unwrap of a
duration parse.  All other failures become the err command, which the
caller merely logs. -/
def intoCommand (now : Nat) : Value → Option MainCommand
  | .arr _ data =>
    match data with
    | [] => none
    | first :: _ =>
      match first with
      | .str command =>
        if lowerBytes command = pingBytes then some .ping
        else if lowerBytes command = echoBytes then
          some (match data.getLast? with
            | some (.str s) => .echo s
            | _ => .err "ECHO: wrong argument type")
        else if lowerBytes command = getBytes then
          some (match data.getLast? with
            | some (.str s) => .get s
            | _ => .err "GET: wrong argument type")
        else if lowerBytes command = setBytes then
          if data.length = 3 then
            match data.getLast? with
            | none => none
            | some value =>
              match data.dropLast.getLast? with
              | some (.str name) => some (.set name value none)
              | some _ => some (.err "SET: wrong argument type")
              | none => none
          else if data.length = 5 then mainSetPx now data
          else some (.err ("wrong number of arguments for set: " ++ toString data.length))
        else some (.err ("not implemented: " ++ bytesToString command))
      | _ => some (.err "wrong argument type")
  | .str data =>
    if lowerBytes data = pingBytes then some .ping
    else some (.err ("not implemented: " ++ bytesToString data))
  | _ => some (.err "wrong argument type")

/-- Connection-local state of a Processor: unlike the Worker, the storage
lives inside the Processor and is per connection. -/
structure PState : Type where
  stream : List Nat
  storage : Store
deriving DecidableEq

def nilReplyBytes : List Nat := [36, 45, 49, 13, 10]

/-- Processor::process_message of main.rs: read, interpret, dispatch.
Replies are hand-formatted simple strings (plus PONG, plus OK, plus the
echoed or fetched text) or the nil bulk reply; the err command produces no
reply at all (the cause is only logged) and the function returns ok, so
the connection loop in handle_connection continues. -/
def procProcessMessage (now mf : Nat) (st : PState) :
    Option (Except RErr (PState × Option (List Nat))) :=
  match mainReadMessage mf st.stream with
  | none => none
  | some (.error e) => some (.error e)
  | some (.ok (msg, s2)) =>
    match intoCommand now msg with
    | none => some (.error .panicked)
    | some c =>
      match c with
      | .ping => some (.ok (⟨s2, st.storage⟩, some ([43, 80, 79, 78, 71, 13, 10])))
      | .echo d => some (.ok (⟨s2, st.storage⟩, some (43 :: d ++ [13, 10])))
      | .get n =>
        let reply :=
          match lookupStore st.storage n with
          | some ⟨.str v, some ex⟩ =>
            if ex < now then nilReplyBytes else 43 :: v ++ [13, 10]
          | some ⟨.str v, none⟩ => 43 :: v ++ [13, 10]
          | _ => nilReplyBytes
        some (.ok (⟨s2, st.storage⟩, some reply))
      | .set n v e =>
        some (.ok (⟨s2, insertStore n ⟨v, e⟩ st.storage⟩, some ([43, 79, 75, 13, 10])))
      | .err _ => some (.ok (⟨s2, st.storage⟩, none))

/- ## Lemmas about completeness and the append protocol -/

theorem allComplete_iff (xs : List Value) :
    allComplete xs = true ↔ ∀ x ∈ xs, x.isComplete = true := by
  induction xs with
  | nil => simp [allComplete]
  | cons x xs ih => simp [allComplete, ih]

theorem allSizeInv_iff (xs : List Value) :
    allSizeInv xs = true ↔ ∀ x ∈ xs, sizeInv x = true := by
  induction xs with
  | nil => simp [allSizeInv]
  | cons x xs ih => simp [allSizeInv, ih]

/-- When every element is complete, the find over incomplete children
comes back empty. -/
theorem vAppendList_of_allComplete (xs : List Value) (v : Value)
    (h : ∀ x ∈ xs, x.isComplete = true) : vAppendList xs v = none := by
  induction xs with
  | nil => simp [vAppendList]
  | cons x xs ih =>
    have hx : x.isComplete = true := h x (by simp)
    simp [vAppendList, hx, ih (fun y hy => h y (by simp [hy]))]

/-- When the list splits as a complete prefix, an incomplete element and a
tail, the find recurses into exactly that element. -/
theorem vAppendList_split (pre suf : List Value) (c v : Value)
    (hpre : ∀ x ∈ pre, x.isComplete = true) (hc : c.isComplete = false) :
    vAppendList (pre ++ c :: suf) v
      = some ((c.vAppend v).map (fun c2 => pre ++ c2 :: suf)) := by
  induction pre with
  | nil => simp [vAppendList, hc]
  | cons x pre ih =>
    have hx : x.isComplete = true := hpre x (by simp)
    have ih2 := ih (fun y hy => hpre y (by simp [hy]))
    simp only [List.cons_append, vAppendList, hx, if_true, List.append_eq, ih2]
    cases c.vAppend v <;> rfl

theorem allSizeInv_append (xs ys : List Value) :
    allSizeInv (xs ++ ys) = (allSizeInv xs && allSizeInv ys) := by
  induction xs with
  | nil => simp [allSizeInv]
  | cons x xs ih => simp [allSizeInv, ih, Bool.and_assoc]

mutual

/-- Appending a size-invariant value into a size-invariant root keeps the
invariant: the push branch is guarded by the count check, and recursion
rewrites a single child. -/
theorem vAppend_sizeInv : ∀ root v r : Value, sizeInv root = true → sizeInv v = true →
    root.vAppend v = some r → sizeInv r = true
  | .nil, v, r => by simp [Value.vAppend]
  | .int _, v, r => by simp [Value.vAppend]
  | .str _, v, r => by simp [Value.vAppend]
  | .arr size data, v, r => by
    intro hroot hv happ
    have hlen : data.length ≤ size ∧ allSizeInv data = true := by
      simpa [sizeInv, Bool.and_eq_true, decide_eq_true_eq] using hroot
    rcases hsplit : vAppendList data v with _ | rr
    · simp only [Value.vAppend, hsplit] at happ
      split at happ
      · simp at happ
      · split at happ
        · obtain rfl : Value.arr size (data ++ [v]) = r := by simpa using happ
          have hall : allSizeInv (data ++ [v]) = true := by
            simp [allSizeInv_append, allSizeInv, hlen.2, hv]
          simp only [sizeInv, Bool.and_eq_true, decide_eq_true_eq]
          exact ⟨by simpa using Nat.succ_le_of_lt (by assumption), hall⟩
        · simp at happ
    · rcases rr with _ | newData
      · simp only [Value.vAppend, hsplit] at happ
        split at happ
        · simp at happ
        · simp at happ
      · simp only [Value.vAppend, hsplit] at happ
        split at happ
        · simp at happ
        · obtain rfl : Value.arr size newData = r := by simpa using happ
          have hinner := vAppendList_sizeInv data v newData hlen.2 hv hsplit
          simp only [sizeInv, Bool.and_eq_true, decide_eq_true_eq]
          exact ⟨hinner.2 ▸ hlen.1, hinner.1⟩

theorem vAppendList_sizeInv : ∀ (xs : List Value) (v : Value) (r : List Value),
    allSizeInv xs = true → sizeInv v = true →
    vAppendList xs v = some (some r) → allSizeInv r = true ∧ r.length = xs.length
  | [], v, r => by simp [vAppendList]
  | x :: xs, v, r => by
    intro hxs hv happ
    have hx : sizeInv x = true ∧ allSizeInv xs = true := by
      simpa [allSizeInv, Bool.and_eq_true] using hxs
    by_cases hcx : x.isComplete = true
    · rcases hrec : vAppendList xs v with _ | rr
      · simp [vAppendList, hcx, hrec] at happ
      · rcases rr with _ | r1
        · simp [vAppendList, hcx, hrec] at happ
        · obtain rfl : x :: r1 = r := by simpa [vAppendList, hcx, hrec] using happ
          have ih := vAppendList_sizeInv xs v r1 hx.2 hv hrec
          exact ⟨by simp [allSizeInv, hx.1, ih.1], by simp [ih.2]⟩
    · rcases hxa : x.vAppend v with _ | x2
      · simp [vAppendList, hcx, hxa] at happ
      · obtain rfl : x2 :: xs = r := by simpa [vAppendList, hcx, hxa] using happ
        have hx2 := vAppend_sizeInv x v x2 hx.1 hv hxa
        exact ⟨by simp [allSizeInv, hx2, hx.2], by simp⟩

end

/-- Every unit produced by read_single of redis.rs satisfies the size
invariant: fresh arrays start with zero collected elements. -/
theorem readSingle_sizeInv (s : List Nat) (v : Value) (s2 : List Nat)
    (h : readSingle s = .ok (v, s2)) : sizeInv v = true := by
  unfold readSingle at h
  repeat' split at h
  all_goals simp at h
  all_goals obtain ⟨rfl, rfl⟩ := h
  all_goals simp [sizeInv, allSizeInv]

/-- The append loop of read_message preserves the size invariant of the
accumulating root. -/
theorem readMessageAux_sizeInv : ∀ (fuel : Nat) (msg : Value) (s : List Nat)
    (r : Value) (rest : List Nat), sizeInv msg = true →
    readMessageAux fuel msg s = some (.ok (r, rest)) → sizeInv r = true := by
  intro fuel
  induction fuel with
  | zero =>
    intro msg s r rest hm h
    unfold readMessageAux at h
    split at h
    · obtain ⟨rfl, rfl⟩ : msg = r ∧ s = rest := by simpa using h
      exact hm
    · simp at h
  | succ n ih =>
    intro msg s r rest hm h
    unfold readMessageAux at h
    split at h
    · obtain ⟨rfl, rfl⟩ : msg = r ∧ s = rest := by simpa using h
      exact hm
    · cases hrs : readSingle s with
      | error e => rw [hrs] at h; simp at h
      | ok p =>
        obtain ⟨v, s2⟩ := p
        rw [hrs] at h
        have h2 : (match msg.vAppend v with
            | none => some (Except.error RErr.panicked)
            | some msg2 => readMessageAux n msg2 s2) = some (Except.ok (r, rest)) := h
        cases hap : msg.vAppend v with
        | none => rw [hap] at h2; simp at h2
        | some msg2 =>
          rw [hap] at h2
          exact ih msg2 s2 r rest
            (vAppend_sizeInv msg v msg2 hm (readSingle_sizeInv s v s2 hrs) hap) h2

theorem readMessage_sizeInv (fuel : Nat) (s : List Nat) (r : Value) (rest : List Nat)
    (h : readMessage fuel s = some (.ok (r, rest))) : sizeInv r = true := by
  unfold readMessage at h
  cases hrs : readSingle s with
  | error e => rw [hrs] at h; simp at h
  | ok p =>
    obtain ⟨v, s2⟩ := p
    rw [hrs] at h
    exact readMessageAux_sizeInv fuel v s2 r rest (readSingle_sizeInv s v s2 hrs) h

/- ## Claim theorems -/

/-- C1.  The claim states one sweep pass removes exactly the entries
whose expiry is present and at-or-before the current time and keeps every
unexpired entry.  The retain predicate of Server::gc is inverted: with
current time 5 it keeps the entry expired at 0, removes the unexpired
entry with expiry 10, and keeps the entry without an expiry.  This
evaluation exhibits the divergence on a concrete store. -/
theorem c1_sweep_inverted_eval :
    gcPass 5 [([107], ⟨.nil, some 0⟩), ([108], ⟨.nil, some 10⟩), ([109], ⟨.nil, none⟩)]
      = [([107], ⟨.nil, some 0⟩), ([109], ⟨.nil, none⟩)] := by decide

/-- C3.  The claim states Array(n, elems) encodes as the header star n
CRLF followed by the element encodings.  The Display implementation in
redis.rs instead emits star n, then the element encodings, then a single
CRLF at the very end: Array(2, Int 1, Int 2) produces the bytes of
star 2 colon 1 CRLF colon 2 CRLF CRLF rather than the claimed
star 2 CRLF colon 1 CRLF colon 2 CRLF. -/
theorem c3_array_encoding_eval :
    encode (.arr 2 [.int 1, .int 2]) = [42, 50, 58, 49, 13, 10, 58, 50, 13, 10, 13, 10]
    ∧ encode (.arr 2 [.int 1, .int 2]) ≠ [42, 50, 13, 10, 58, 49, 13, 10, 58, 50, 13, 10] := by
  decide

/-- C7.  The claim states a non-numeric length or integer line is reported
as a recoverable ProtocolFailure.  The source Error enum has no protocol
variant at all, and read_num unwraps the parse result: on the length line
abc the decode aborts with a panic (modelled as the panicked outcome),
which is a fatal abort of the task, not a reported recoverable failure. -/
theorem c7_read_num_eval :
    readSingle [42, 97, 98, 99, 13, 10] = .error .panicked
    ∧ readNumUsize [97, 98, 99, 13, 10] = .error .panicked := by decide

/-- C9.  Value::append attaches the new value following the first
incomplete child found left to right: appending to a complete value or to
a non-array is a fatal panic (none); on an incomplete array whose
children are all complete the element list grows by exactly the appended
value; on an incomplete array whose first incomplete child is c, the call
recurses into exactly c, leaving every other element in place.  The size
invariant hypothesis reflects the decoder-maintained precondition that
collected counts never exceed declared sizes. -/
theorem c9_append_spec (root v : Value) :
    (root.isComplete = true → root.vAppend v = none)
    ∧ ((∀ size data, root ≠ .arr size data) → root.vAppend v = none)
    ∧ (∀ size data, root = .arr size data → root.isComplete = false → sizeInv root = true →
        ((∀ x ∈ data, x.isComplete = true) →
          root.vAppend v = some (.arr size (data ++ [v])))
        ∧ (∀ pre c suf, data = pre ++ c :: suf → (∀ x ∈ pre, x.isComplete = true) →
            c.isComplete = false →
            root.vAppend v = (c.vAppend v).map (fun c2 => .arr size (pre ++ c2 :: suf)))) := by
  refine ⟨?_, ?_, ?_⟩
  · intro hc
    match root with
    | .nil => rfl
    | .int _ => rfl
    | .str _ => rfl
    | .arr size data => simp [Value.vAppend, hc]
  · intro hna
    match root with
    | .nil => rfl
    | .int _ => rfl
    | .str _ => rfl
    | .arr size data => exact absurd rfl (hna size data)
  · rintro size data rfl hnc hinv
    have hlen : data.length ≤ size ∧ allSizeInv data = true := by
      simpa [sizeInv, Bool.and_eq_true, decide_eq_true_eq] using hinv
    constructor
    · intro hall
      have hfind : vAppendList data v = none := vAppendList_of_allComplete data v hall
      have hne : size ≠ data.length := by
        intro hsz
        apply absurd hnc
        simp [Value.isComplete, hsz, (allComplete_iff data).2 hall]
      have hlt : data.length < size := Nat.lt_of_le_of_ne hlen.1 (fun hh => hne hh.symm)
      simp [Value.vAppend, hnc, hfind, hlt]
    · rintro pre c suf rfl hpre hc
      have hsp := vAppendList_split pre suf c v hpre hc
      simp only [Value.vAppend, hnc, Bool.false_eq_true, if_false, hsp]
      cases c.vAppend v <;> rfl

/-- C9 witness: the push branch on a concrete incomplete array. -/
theorem c9_append_spec_witness :
    Value.vAppend (.arr 2 [.nil]) .nil = some (.arr 2 [.nil, .nil]) :=
  ((c9_append_spec (.arr 2 [.nil]) .nil).2.2 2 [.nil] rfl (by decide) (by decide)).1 (by decide)

/-- C10.  Every value the decoder of redis.rs produces satisfies the
count-at-most-declared-size invariant at every array node: a single
decoded unit satisfies it because fresh arrays start empty; appending a
decoded unit preserves it because the push is guarded by the count check;
and thus any completed message returned by read_message satisfies it. -/
theorem c10_size_invariant :
    (∀ s v s2, readSingle s = .ok (v, s2) → sizeInv v = true)
    ∧ (∀ root v r : Value, sizeInv root = true → sizeInv v = true →
        root.vAppend v = some r → sizeInv r = true)
    ∧ (∀ fuel s r rest, readMessage fuel s = some (.ok (r, rest)) → sizeInv r = true) :=
  ⟨readSingle_sizeInv, vAppend_sizeInv,
    fun fuel s r rest h => readMessage_sizeInv fuel s r rest h⟩

/-- C10 witness: a decoded two-unit message satisfies the invariant. -/
theorem c10_size_invariant_witness :
    sizeInv (Value.arr 1 [Value.str [97]]) = true :=
  c10_size_invariant.2.2 4 [42, 49, 13, 10, 36, 49, 13, 10, 97, 13, 10]
    (Value.arr 1 [Value.str [97]]) [] (by decide)

/-- C5 counterexample.  The claim reports the key absent when the expiry
is at-or-before the current time; with the stored expiry equal to the
sampled now (both 5), get_value still returns the stored value, because
the source comparison is strict. -/
theorem c5_counterexample :
    getValue [([107], ⟨.str [118], some 5⟩)] [107] 5 = .str [118]
    ∧ Value.str [118] ≠ Value.nil := by decide

/-- C5 as amended: get reports the key absent exactly when the present
expiry is strictly before the sampled current time (an entry whose expiry
equals the current time still reads as present); the read never mutates
the store (the dispatch of a Get leaves the storage untouched); a present
unexpired entry returns a copy of its stored value. -/
theorem c5_get_expiry (storage : Store) (k : List Nat) (now : Nat) (sv : StoredValue)
    (h : lookupStore storage k = some sv) :
    (∀ ex, sv.expiry = some ex → ex < now → getValue storage k now = .nil)
    ∧ (∀ ex, sv.expiry = some ex → now ≤ ex → getValue storage k now = sv.value)
    ∧ (sv.expiry = none → getValue storage k now = sv.value)
    ∧ (dispatch now storage (.get k)).2 = storage := by
  refine ⟨?_, ?_, ?_, rfl⟩
  · intro ex hex hlt
    simp [getValue, h, hex, hlt]
  · intro ex hex hge
    simp [getValue, h, hex, Nat.not_lt.2 hge]
  · intro hnone
    simp [getValue, h, hnone]

/-- C5 witness: a concrete expired read comes back nil. -/
theorem c5_get_expiry_witness :
    getValue [([107], ⟨.str [118], some 3⟩)] [107] 9 = .nil :=
  (c5_get_expiry [([107], ⟨.str [118], some 3⟩)] [107] 9 ⟨.str [118], some 3⟩
    (by decide)).1 3 rfl (by decide)

/-- C2 counterexample.  An unknown bare command FOO interprets to an
Argument failure; the Worker of redis.rs then terminates its run loop
with that failure, sending no reply and never reaching the well-formed
PING request already buffered on the same connection, and the terminating
failure is not an I/O failure. -/
theorem c2_counterexample :
    runW 0 5 2 ⟨[43, 70, 79, 79, 13, 10, 43, 80, 73, 78, 71, 13, 10], []⟩
      = some ([], ⟨[43, 70, 79, 79, 13, 10, 43, 80, 73, 78, 71, 13, 10], []⟩,
          some (.argument "not implemented: FOO"))
    ∧ RErr.argument "not implemented: FOO" ≠ RErr.ioErr := by decide

/-- C2 as amended: a request whose interpretation fails receives no reply
in either snapshot, but the two snapshots then part ways.  In the Worker
of redis.rs every failure returned by Command::from_value, whatever its
kind (ArgumentFailure or the TryFromInt conversion failure alike),
propagates out of process_message and run, so the connection loop
terminates with exactly that failure (not only an I/O failure ends the
loop).  In the Processor of main.rs the failure is carried as an err
command whose dispatch arm only logs the cause, replies nothing, and
returns ok, so the connection loop does continue with the next request. -/
theorem c2_worker_error_handling :
    (∀ now mf n stream stor msg rest (e : RErr),
      readMessage mf stream = some (.ok (msg, rest)) →
      fromValue now msg = .error e →
      runW now mf (n + 1) ⟨stream, stor⟩ = some ([], ⟨stream, stor⟩, some e))
    ∧ (∀ now mf stream stor msg rest cause,
      mainReadMessage mf stream = some (.ok (msg, rest)) →
      intoCommand now msg = some (.err cause) →
      procProcessMessage now mf ⟨stream, stor⟩ = some (.ok (⟨rest, stor⟩, none))) := by
  constructor
  · intro now mf n stream stor msg rest e hread hcmd
    have hpm : processMessage now mf ⟨stream, stor⟩ = some (.error e) := by
      simp [processMessage, hread, hcmd]
    simp [runW, hpm]
  · intro now mf stream stor msg rest cause hread hcmd
    simp [procProcessMessage, hread, hcmd]

/-- C2 witness: the amended Worker half at a concrete stream carrying a
conversion failure, the wire form of SET k v PX -5, whose negative
integer makes try_into fail with TryFromInt. -/
theorem c2_worker_error_handling_witness :
    runW 0 9 1 ⟨[42, 53, 13, 10, 36, 51, 13, 10, 83, 69, 84, 13, 10, 36, 49, 13, 10, 107,
        13, 10, 36, 49, 13, 10, 118, 13, 10, 36, 50, 13, 10, 80, 88, 13, 10, 58, 45, 53,
        13, 10], []⟩
      = some ([], ⟨[42, 53, 13, 10, 36, 51, 13, 10, 83, 69, 84, 13, 10, 36, 49, 13, 10,
          107, 13, 10, 36, 49, 13, 10, 118, 13, 10, 36, 50, 13, 10, 80, 88, 13, 10, 58,
          45, 53, 13, 10], []⟩, some .tryFromInt) :=
  c2_worker_error_handling.1 0 9 0
    [42, 53, 13, 10, 36, 51, 13, 10, 83, 69, 84, 13, 10, 36, 49, 13, 10, 107, 13, 10, 36,
      49, 13, 10, 118, 13, 10, 36, 50, 13, 10, 80, 88, 13, 10, 58, 45, 53, 13, 10] []
    (.arr 5 [.str [83, 69, 84], .str [107], .str [118], .str [80, 88], .int (-5)]) []
    .tryFromInt (by decide) (by decide)

/-- C8 counterexample.  The claim states the simple-string reply plus PONG
is never written; the Processor of main.rs answers the array-framed PING
request with exactly those bytes, which differ from the claimed bulk
form. -/
theorem c8_counterexample :
    procProcessMessage 0 5 ⟨[42, 49, 13, 10, 36, 52, 13, 10, 80, 73, 78, 71, 13, 10], []⟩
      = some (.ok (⟨[], []⟩, some [43, 80, 79, 78, 71, 13, 10]))
    ∧ [43, 80, 79, 78, 71, 13, 10] ≠ [36, 52, 13, 10, 80, 79, 78, 71, 13, 10] := by decide

/-- C8 as amended: the Worker of redis.rs does reply to every PING with
the bulk-string bytes dollar 4 CRLF PONG CRLF, but the Processor of
main.rs replies to PING with the simple-string bytes plus PONG CRLF. -/
theorem c8_ping_reply :
    (∀ now mf stream stor msg rest,
      readMessage mf stream = some (.ok (msg, rest)) →
      fromValue now msg = .ok .ping →
      processMessage now mf ⟨stream, stor⟩
        = some (.ok (⟨rest, stor⟩, [36, 52, 13, 10, 80, 79, 78, 71, 13, 10])))
    ∧ (∀ now mf stream stor msg rest,
      mainReadMessage mf stream = some (.ok (msg, rest)) →
      intoCommand now msg = some .ping →
      procProcessMessage now mf ⟨stream, stor⟩
        = some (.ok (⟨rest, stor⟩, some [43, 80, 79, 78, 71, 13, 10]))) := by
  constructor
  · intro now mf stream stor msg rest hread hcmd
    simp [processMessage, hread, hcmd, dispatch]
    rfl
  · intro now mf stream stor msg rest hread hcmd
    simp [procProcessMessage, hread, hcmd]

/-- C8 witness: the Worker half at a concrete simple-string PING. -/
theorem c8_ping_reply_witness :
    processMessage 7 4 ⟨[43, 112, 105, 110, 103, 13, 10], []⟩
      = some (.ok (⟨[], []⟩, [36, 52, 13, 10, 80, 79, 78, 71, 13, 10])) :=
  c8_ping_reply.1 7 4 [43, 112, 105, 110, 103, 13, 10] [] (.str [112, 105, 110, 103]) []
    (by decide) (by decide)

/-- C6 counterexample.  The claim accepts a SET with expiry only for
exactly 5 total elements and calls any flag count outside zero or two an
ArgumentError.  A 7-element SET carrying two PX pairs is accepted:
set pops the trailing pair, set_with_flags recurses (dropping the outer
deadline), and the leftmost pair wins, here PX 100 at now 1000 giving the
absolute deadline 1100. -/
theorem c6_counterexample :
    fromValue 1000 (.arr 7 [.str [83, 69, 84], .str [107], .str [118],
        .str [80, 88], .int 100, .str [80, 88], .int 200])
      = .ok (.set [107] (.str [118]) (some 1100)) := by decide

/-- C6 as amended: a 5-element SET behaves as claimed (the 4th element
must lowercase to px, the 5th may be a nonnegative integer or a numeric
string, and the computed deadline is now plus the milliseconds; any other
flag string is an ArgumentError), and a 4-element SET never yields a
command; but the exactly-5 restriction is false: trailing px-and-value
pairs are stripped recursively, so 7, 9, and so on total elements can
also be accepted, with the leftmost pair deciding the deadline, as the
counterexample shows. -/
theorem c6_set_flags :
    (∀ (now : Nat) (cmd k : List Nat) (v : Value) (flag : List Nat) (ms : Int),
      lowerBytes cmd = setBytes → lowerBytes flag = pxBytes → 0 ≤ ms →
      fromValue now (.arr 5 [.str cmd, .str k, v, .str flag, .int ms])
        = .ok (.set k v (some (now + ms.toNat))))
    ∧ (∀ (now : Nat) (cmd k : List Nat) (v : Value) (flag ds : List Nat) (ms : Nat),
      lowerBytes cmd = setBytes → lowerBytes flag = pxBytes → parseUsizeBytes ds = some ms →
      fromValue now (.arr 5 [.str cmd, .str k, v, .str flag, .str ds])
        = .ok (.set k v (some (now + ms))))
    ∧ (∀ (now : Nat) (cmd : List Nat) (a b : Value) (flag : List Nat) (arg : Value),
      lowerBytes cmd = setBytes → lowerBytes flag ≠ pxBytes →
      fromValue now (.arr 5 [.str cmd, a, b, .str flag, arg])
        = .error (.argument ("SET: flag not implemented: " ++ bytesToString flag)))
    ∧ (∀ (now : Nat) (cmd : List Nat) (a b c : Value) (r : Command),
      lowerBytes cmd = setBytes →
      fromValue now (.arr 4 [.str cmd, a, b, c]) ≠ .ok r) := by
  refine ⟨?_, ?_, ?_, ?_⟩
  · intro now cmd k v flag ms hcmd hflag hms
    simp [fromValue, fromArray, hcmd, setCmd, setCmdFuel, setWithFlagsFuel, hflag, hms,
      setBytes, pingBytes, echoBytes, getBytes, pxBytes]
  · intro now cmd k v flag ds ms hcmd hflag hds
    simp [fromValue, fromArray, hcmd, setCmd, setCmdFuel, setWithFlagsFuel, hflag, hds,
      setBytes, pingBytes, echoBytes, getBytes, pxBytes]
  · intro now cmd a b flag arg hcmd hflag
    simp [fromValue, fromArray, hcmd, setCmd, setCmdFuel, setWithFlagsFuel, hflag,
      setBytes, pingBytes, echoBytes, getBytes]
  · intro now cmd a b c r hcmd
    rcases b with _ | n | f | ⟨sz, d⟩ <;>
      simp [fromValue, fromArray, hcmd, setCmd, setCmdFuel, setWithFlagsFuel,
        setBytes, pingBytes, echoBytes, getBytes, pxBytes]
    split_ifs with hf
    · rcases c with _ | n2 | ds | ⟨sz2, d2⟩ <;> simp [setCmdFuel]
      · split_ifs <;> simp
      · rcases parseUsizeBytes ds with _ | ms <;> simp
    · simp

/-- C6 witness: a concrete well-formed 5-element SET with an integer PX
value. -/
theorem c6_set_flags_witness :
    fromValue 40 (.arr 5 [.str [83, 69, 84], .str [107], .str [118], .str [112, 88], .int 60])
      = .ok (.set [107] (.str [118]) (some 100)) :=
  c6_set_flags.1 40 [83, 69, 84] [107] (.str [118]) [112, 88] 60 (by decide) (by decide)
    (by decide)

/- ## Round-trip infrastructure: decimal rendering inverts decimal parsing -/

theorem natDigitsAux_digits : ∀ (fuel n : Nat), n < fuel →
    natDigitsAux fuel n ≠ [] ∧ ∀ b ∈ natDigitsAux fuel n, 48 ≤ b ∧ b ≤ 57 := by
  intro fuel
  induction fuel with
  | zero => intro n hn; omega
  | succ f ih =>
    intro n hn
    by_cases h10 : n < 10
    · refine ⟨by simp [natDigitsAux, h10], ?_⟩
      intro b hb
      simp [natDigitsAux, h10] at hb
      omega
    · have hrec : n / 10 < f := by omega
      have ihr := ih (n / 10) hrec
      constructor
      · simp [natDigitsAux, h10]
      · intro b hb
        simp only [natDigitsAux, h10, if_false, List.mem_append, List.mem_singleton] at hb
        rcases hb with hb | hb
        · exact ihr.2 b hb
        · have : n % 10 < 10 := Nat.mod_lt _ (by omega)
          omega

theorem natDigits_digits (n : Nat) :
    natDigits n ≠ [] ∧ ∀ b ∈ natDigits n, 48 ≤ b ∧ b ≤ 57 :=
  natDigitsAux_digits (n + 1) n (Nat.lt_succ_self n)

theorem parseNatDigits_append_digit (s : List Nat) (b m : Nat)
    (h : parseNatDigits s = some m) (hb : 48 ≤ b) (hb2 : b ≤ 57) :
    parseNatDigits (s ++ [b]) = some (m * 10 + (b - 48)) := by
  have hne : s.isEmpty = false := by
    rcases hse : s.isEmpty with _ | _
    · rfl
    · rw [parseNatDigits, hse] at h; simp at h
  have hfold : s.foldl (fun acc c => acc.bind (fun n => (digitVal c).map (fun d => n * 10 + d)))
      (some 0) = some m := by
    rw [parseNatDigits, hne] at h
    simpa using h
  rw [parseNatDigits]
  have hne2 : (s ++ [b]).isEmpty = false := by simp
  rw [hne2]
  simp only [Bool.false_eq_true, if_false, List.foldl_append, hfold, List.foldl_cons,
    List.foldl_nil]
  simp [digitVal, hb, hb2]

theorem parseNatDigits_natDigitsAux : ∀ (fuel n : Nat), n < fuel →
    parseNatDigits (natDigitsAux fuel n) = some n := by
  intro fuel
  induction fuel with
  | zero => intro n hn; omega
  | succ f ih =>
    intro n hn
    by_cases h10 : n < 10
    · simp [natDigitsAux, h10, parseNatDigits, digitVal]
      omega
    · have hrec : n / 10 < f := by omega
      have ihr := ih (n / 10) hrec
      have hdig := parseNatDigits_append_digit (natDigitsAux f (n / 10)) (48 + n % 10)
        (n / 10) ihr (by omega) (by have : n % 10 < 10 := Nat.mod_lt _ (by omega); omega)
      rw [natDigitsAux]
      simp only [h10, if_false]
      rw [hdig]
      congr 1
      omega

theorem parseNatDigits_natDigits (n : Nat) : parseNatDigits (natDigits n) = some n :=
  parseNatDigits_natDigitsAux (n + 1) n (Nat.lt_succ_self n)

theorem readUntilLF_split (a b : List Nat) (ha : ∀ x ∈ a, x ≠ 10) :
    readUntilLF (a ++ 10 :: b) = (a ++ [10], b) := by
  induction a with
  | nil => simp [readUntilLF]
  | cons x xs ih =>
    have hx : x ≠ 10 := ha x (by simp)
    have ihr := ih (fun y hy => ha y (by simp [hy]))
    simp [readUntilLF, hx, ihr]

theorem trimBytes_wrap (d : List Nat) (hne : d ≠ []) (hd : ∀ b ∈ d, isWs b = false) :
    trimBytes (d ++ [13, 10]) = d := by
  rcases d with _ | ⟨x, d2⟩
  · exact absurd rfl hne
  · have hx : isWs x = false := hd x (by simp)
    have h1 : ((x :: d2) ++ [13, 10]).dropWhile isWs = (x :: d2) ++ [13, 10] := by
      simp [List.dropWhile_cons, hx]
    rcases hrev : (x :: d2).reverse with _ | ⟨y, t⟩
    · simp at hrev
    · have hy : isWs y = false := by
        have hmem : y ∈ x :: d2 := by
          rw [← List.mem_reverse, hrev]; simp
        exact hd y hmem
      unfold trimBytes
      rw [h1]
      have h2 : ((x :: d2) ++ [13, 10]).reverse = 10 :: 13 :: (x :: d2).reverse := by simp
      rw [h2, hrev]
      have h3 : (10 :: 13 :: y :: t).dropWhile isWs = y :: t := by
        simp [List.dropWhile_cons, hy, show isWs 10 = true from rfl,
          show isWs 13 = true from rfl]
      rw [h3]
      have := congrArg List.reverse hrev
      simpa using this.symm

theorem digit_not_ws (b : Nat) (h1 : 48 ≤ b) : isWs b = false := by
  simp [isWs]
  omega

theorem readNumUsize_digits (n : Nat) (hn : n < 2 ^ 64) (rest : List Nat) :
    readNumUsize (natDigits n ++ 13 :: 10 :: rest) = .ok (n, rest) := by
  have hd := natDigits_digits n
  have heq : natDigits n ++ 13 :: 10 :: rest = (natDigits n ++ [13]) ++ 10 :: rest := by simp
  have hsplit : readUntilLF ((natDigits n ++ [13]) ++ 10 :: rest)
      = ((natDigits n ++ [13]) ++ [10], rest) := by
    apply readUntilLF_split
    intro x hx
    simp at hx
    rcases hx with hx | rfl
    · have := hd.2 x hx; omega
    · omega
  have htrim : trimBytes ((natDigits n ++ [13]) ++ [10]) = natDigits n := by
    have hre : (natDigits n ++ [13]) ++ [10] = natDigits n ++ [13, 10] := by simp
    rw [hre]
    exact trimBytes_wrap (natDigits n) hd.1 (fun b hb => digit_not_ws b (hd.2 b hb).1)
  have hparse : parseUsizeBytes (natDigits n) = some n := by
    rcases hnd : natDigits n with _ | ⟨h0, t⟩
    · exact absurd hnd hd.1
    · have h48 : 48 ≤ h0 := (hd.2 h0 (by rw [hnd]; simp)).1
      have hpn : parseNatDigits (h0 :: t) = some n := by
        rw [← hnd]; exact parseNatDigits_natDigits n
      simp only [parseUsizeBytes]
      rw [if_neg (by omega)]
      rw [hpn]
      simp
      omega
  rw [heq]
  simp only [readNumUsize, hsplit, htrim, hparse]

theorem readNumI64_natDigits (n : Nat) (hn : n < 2 ^ 63) (rest : List Nat) :
    readNumI64 (natDigits n ++ 13 :: 10 :: rest) = .ok ((n : Int), rest) := by
  have hd := natDigits_digits n
  have heq : natDigits n ++ 13 :: 10 :: rest = (natDigits n ++ [13]) ++ 10 :: rest := by simp
  have hsplit : readUntilLF ((natDigits n ++ [13]) ++ 10 :: rest)
      = ((natDigits n ++ [13]) ++ [10], rest) := by
    apply readUntilLF_split
    intro x hx
    simp at hx
    rcases hx with hx | rfl
    · have := hd.2 x hx; omega
    · omega
  have htrim : trimBytes ((natDigits n ++ [13]) ++ [10]) = natDigits n := by
    have hre : (natDigits n ++ [13]) ++ [10] = natDigits n ++ [13, 10] := by simp
    rw [hre]
    exact trimBytes_wrap (natDigits n) hd.1 (fun b hb => digit_not_ws b (hd.2 b hb).1)
  have hparse : parseI64Bytes (natDigits n) = some ((n : Int)) := by
    rcases hnd : natDigits n with _ | ⟨h0, t⟩
    · exact absurd hnd hd.1
    · have h48 : 48 ≤ h0 := (hd.2 h0 (by rw [hnd]; simp)).1
      have hpn : parseNatDigits (h0 :: t) = some n := by
        rw [← hnd]; exact parseNatDigits_natDigits n
      simp only [parseI64Bytes]
      rw [if_neg (by omega), if_neg (by omega)]
      rw [hpn]
      simp
      omega
  rw [heq]
  simp only [readNumI64, hsplit, htrim, hparse]

theorem readNumI64_negDigits (m : Nat) (hm : m ≤ 2 ^ 63) (rest : List Nat) :
    readNumI64 (45 :: natDigits m ++ 13 :: 10 :: rest) = .ok (-(m : Int), rest) := by
  have hd := natDigits_digits m
  have heq : 45 :: natDigits m ++ 13 :: 10 :: rest = ((45 :: natDigits m) ++ [13]) ++ 10 :: rest := by
    simp
  have hsplit : readUntilLF (((45 :: natDigits m) ++ [13]) ++ 10 :: rest)
      = (((45 :: natDigits m) ++ [13]) ++ [10], rest) := by
    apply readUntilLF_split
    intro x hx
    simp at hx
    rcases hx with rfl | hx | rfl
    · omega
    · have := hd.2 x hx; omega
    · omega
  have htrim : trimBytes (((45 :: natDigits m) ++ [13]) ++ [10]) = 45 :: natDigits m := by
    have hre : ((45 :: natDigits m) ++ [13]) ++ [10] = (45 :: natDigits m) ++ [13, 10] := by simp
    rw [hre]
    refine trimBytes_wrap (45 :: natDigits m) (by simp) ?_
    intro b hb
    simp at hb
    rcases hb with rfl | hb
    · rfl
    · exact digit_not_ws b (hd.2 b hb).1
  have hparse : parseI64Bytes (45 :: natDigits m) = some (-(m : Int)) := by
    simp [parseI64Bytes, parseNatDigits_natDigits m]
    omega
  rw [heq]
  simp only [readNumI64, hsplit, htrim, hparse]

theorem readSingle_colon (rest : List Nat) (n : Int) (r : List Nat)
    (h : readNumI64 rest = .ok (n, r)) : readSingle (58 :: rest) = .ok (.int n, r) := by
  simp [readSingle, h]

theorem readSingle_star (rest : List Nat) (n : Nat) (r : List Nat)
    (h : readNumUsize rest = .ok (n, r)) : readSingle (42 :: rest) = .ok (.arr n [], r) := by
  simp [readSingle, h]

theorem readSingle_dollar_pos (rest : List Nat) (sz : Int) (r r2 body : List Nat)
    (h : readNumI64 rest = .ok (sz, r)) (hpos : 0 < sz)
    (h2 : readFixedString sz.toNat r = .ok (body, r2)) :
    readSingle (36 :: rest) = .ok (.str body, r2) := by
  simp [readSingle, h, hpos, h2]

/-- The domain on which the round-trip does hold in the source: Nil,
i64-range integers, nonempty ASCII strings shorter than the i64 bound,
and element-free arrays with a usize-range declared size.  Empty strings
fall outside (their encoding decodes as Nil), and so does any array with
at least one element (its encoding misplaces the header terminator). -/
def roundtripSafe : Value → Bool
  | .nil => true
  | .int n => decide (-(2 ^ 63 : Int) ≤ n) && decide (n < 2 ^ 63)
  | .str s => !s.isEmpty && decide (s.length < 2 ^ 63) && s.all (fun b => decide (b < 128))
  | .arr size data => decide (size < 2 ^ 64) && data.isEmpty

/-- C4 counterexample.  The claim asserts the round-trip for every
constructible Value.  The empty bulk string is constructible, but its
encoding dollar 0 CRLF CRLF decodes as Nil (the decoder treats every
non-positive length as Nil and reads no body), which differs from the
encoded value in shape, and the body terminator line is even left
unconsumed on the stream. -/
theorem c4_counterexample :
    readSingle (encode (.str [])) = .ok (.nil, [13, 10])
    ∧ Value.nil ≠ Value.str [] := by decide

/-- C4 as amended: decoding one unit from the bytes of encode v
reproduces v exactly, and for complete v the full read_message loop does
too, provided v lies in the round-trip-safe domain: Nil, in-range
integers, nonempty ASCII bulk strings, and arrays with no collected
elements.  Outside that domain the claim fails: the empty string decodes
as Nil (see the counterexample), and an array with elements produces an
encoding whose length line is not even numeric. -/
theorem c4_roundtrip (v : Value) (h : roundtripSafe v = true) :
    readSingle (encode v) = .ok (v, [])
    ∧ (v.isComplete = true → ∀ fuel, readMessage fuel (encode v) = some (.ok (v, []))) := by
  have h63n : (2 : Nat) ^ 63 = 9223372036854775808 := by norm_num
  have hsingle : readSingle (encode v) = .ok (v, []) := by
    match v with
    | .nil => decide
    | .int n =>
      have hrange : -(2 ^ 63 : Int) ≤ n ∧ n < 2 ^ 63 := by
        simpa [roundtripSafe, Bool.and_eq_true, decide_eq_true_eq] using h
      have h63 : (2 : Int) ^ 63 = 9223372036854775808 := by norm_num
      rw [h63] at hrange
      by_cases hneg : n < 0
      · have henc : encode (.int n) = 58 :: (45 :: natDigits n.natAbs ++ [13, 10]) := by
          simp [encode, intDigits, hneg]
        have habs : n.natAbs ≤ 2 ^ 63 := by rw [h63n]; omega
        have hread := readNumI64_negDigits n.natAbs habs []
        have hval : -((n.natAbs : Nat) : Int) = n := by omega
        rw [hval] at hread
        rw [henc]
        exact readSingle_colon _ n [] hread
      · have h0 : 0 ≤ n := by omega
        have henc : encode (.int n) = 58 :: (natDigits n.toNat ++ [13, 10]) := by
          simp [encode, intDigits, hneg]
        have hbound : n.toNat < 2 ^ 63 := by rw [h63n]; omega
        have hread := readNumI64_natDigits n.toNat hbound []
        rw [Int.toNat_of_nonneg h0] at hread
        rw [henc]
        exact readSingle_colon _ n [] hread
    | .str s =>
      have hs : s.isEmpty = false ∧ s.length < 2 ^ 63 := by
        have h2 := h
        simp only [roundtripSafe, Bool.and_eq_true, Bool.not_eq_true', decide_eq_true_eq] at h2
        exact ⟨h2.1.1, h2.1.2⟩
      have hlen : 0 < s.length := by
        rcases s with _ | _
        · simp at hs
        · simp
      have henc : encode (.str s) = 36 :: (natDigits s.length ++ 13 :: 10 :: (s ++ [13, 10])) := by
        simp [encode]
      have hread := readNumI64_natDigits s.length hs.2 (s ++ [13, 10])
      have hpos : (0 : Int) < (s.length : Int) := by exact_mod_cast hlen
      have hfix : readFixedString ((s.length : Int)).toNat (s ++ [13, 10]) = .ok (s, []) := by
        have htake : (s ++ [13, 10]).take s.length = s := List.take_left s [13, 10]
        have hdrop : (s ++ [13, 10]).drop s.length = [13, 10] := List.drop_left s [13, 10]
        simp [readFixedString, htake, hdrop, readUntilLF]
      rw [henc]
      exact readSingle_dollar_pos _ (s.length : Int) (s ++ [13, 10]) [] s hread hpos hfix
    | .arr size data =>
      have hs : size < 2 ^ 64 ∧ data.isEmpty = true := by
        simpa [roundtripSafe, Bool.and_eq_true, decide_eq_true_eq] using h
      have hdata : data = [] := by
        rcases data with _ | _
        · rfl
        · simp at hs
      subst hdata
      have henc : encode (.arr size []) = 42 :: (natDigits size ++ 13 :: 10 :: ([] : List Nat)) := by
        simp [encode, encodeList]
      have hread := readNumUsize_digits size hs.1 []
      rw [henc]
      exact readSingle_star _ size [] hread
  refine ⟨hsingle, ?_⟩
  intro hcomp fuel
  simp only [readMessage, hsingle]
  cases fuel <;> simp [readMessageAux, hcomp]

/-- C4 witness: the amended round-trip at a concrete one-byte string. -/
theorem c4_roundtrip_witness :
    readSingle (encode (Value.str [97])) = .ok (.str [97], []) :=
  (c4_roundtrip (.str [97]) (by decide)).1

end RedisSpec
